import Mathlib

/-!
Verification of the epoch-based learning-rate schedule from
facial-landmark-detection-hrnet, src/train.py.

The embedding models:
  * the helper `_lr_schedule(epoch, lr, schedule)` (lines 47-55), which
    returns the scheduled rate on an exact epoch match inside the
    schedule's epoch range and the current rate otherwise;
  * the callback body `EpochBasedLearningRateSchedule.on_epoch_begin`
    (lines 38-61), which checks the optimizer for a mutable "lr"
    attribute, resolves the rate, writes it back, and prints one
    formatted log line.

Epochs are Python ints (modelled as Int), learning rates are modelled as
exact rationals (ℚ): every numeric literal in the schedule is an exact
decimal at this abstraction level.  Indexing a Python list can raise
IndexError on an empty list, so the resolver returns an Option; the
callback returns an Except to model the raised ValueError.
-/

namespace Train

/-- A schedule is an ordered list of (epoch, rate) breakpoints, exactly the
list of pairs the training script builds. -/
abbrev Schedule := List (Int × ℚ)

/-- The loop body of _lr_schedule: scan the schedule left to right and
return the rate of the first breakpoint whose epoch equals the query;
none when the loop falls through. -/
def findRate (epoch : Int) : Schedule → Option ℚ
  | [] => none
  | (e, r) :: rest => if epoch = e then some r else findRate epoch rest

/-- The helper _lr_schedule from train.py lines 47-55:

    if epoch < schedule[0][0] or epoch > schedule[-1][0]:
        return lr
    for i in range(len(schedule)):
        if epoch == schedule[i][0]:
            return schedule[i][1]
    return lr

On an empty schedule the subscript schedule[0] raises IndexError, which the
embedding renders as none. -/
def lr_schedule (epoch : Int) (lr : ℚ) (schedule : Schedule) : Option ℚ :=
  match schedule with
  | [] => none
  | a :: t =>
      if epoch < a.1 ∨ epoch > ((a :: t).getLast (List.cons_ne_nil a t)).1 then
        some lr
      else
        match findRate epoch (a :: t) with
        | some r => some r
        | none => some lr

/-- The schedule literal from train.py lines 144-146:
[(1, 0.001), (30, 0.0001), (50, 0.00001)]. -/
def schedule : Schedule := [(1, 1/1000), (30, 1/10000), (50, 1/100000)]

/-- The spec's well-formedness condition on a schedule: strictly ascending
epochs (sorted with unique epochs). -/
def SortedSchedule (s : Schedule) : Prop :=
  s.Pairwise (fun a b => a.1 < b.1)

instance (s : Schedule) : Decidable (SortedSchedule s) :=
  List.instDecidablePairwise s

/-- The optimizer as seen by the callback: whether it has the mutable
"lr" attribute, and the current value of that attribute. -/
structure Optimizer where
  has_lr : Bool
  learning_rate : ℚ
  deriving DecidableEq, Repr

/-- Left-pad a digit string with zeros up to the given width. -/
def padZeros (width : Nat) (s : String) : String :=
  String.mk (List.replicate (width - s.length) '0') ++ s

/-- The %05d conversion applied to the epoch. -/
def pad5 (n : Int) : String :=
  if n < 0 then "-" ++ padZeros 4 n.natAbs.repr else padZeros 5 n.natAbs.repr

/-- The %6.6f conversion applied to the rate: sign, integer part, then six
fractional digits (width six is always exceeded by the six decimals). -/
def fmt6 (q : ℚ) : String :=
  let sign := if q < 0 then "-" else ""
  let scaled := (Int.floor (|q| * 1000000 + 1/2)).toNat
  sign ++ (scaled / 1000000).repr ++ "." ++ padZeros 6 (scaled % 1000000).repr

/-- The log line printed by on_epoch_begin, train.py line 61:
print("\nEpoch %05d: Learning rate is %6.6f." % (epoch, scheduled_lr)). -/
def logLine (epoch : Int) (rate : ℚ) : String :=
  "\nEpoch " ++ pad5 epoch ++ ": Learning rate is " ++ fmt6 rate ++ "."

/-- The body of EpochBasedLearningRateSchedule.on_epoch_begin, train.py
lines 38-61: raise ValueError when the optimizer has no "lr" attribute;
otherwise read the current rate, resolve it through _lr_schedule, write the
result back and print one log line.  The result pairs the updated optimizer
with the list of lines printed. -/
def on_epoch_begin (opt : Optimizer) (sched : Schedule) (epoch : Int) :
    Except String (Optimizer × List String) :=
  if !opt.has_lr then
    .error "Optimizer must have a \"lr\" attribute."
  else
    match lr_schedule epoch opt.learning_rate sched with
    | some r => .ok ({ opt with learning_rate := r }, [logLine epoch r])
    | none => .error "IndexError: list index out of range"

end Train

namespace Train

/-- C4: with the training script's schedule [(1, 0.001), (30, 0.0001),
(50, 0.00001)], all six end-to-end scenarios of the spec hold:
epoch 0 keeps 0.0005, epoch 1 yields 0.001, epoch 15 keeps 0.001,
epoch 30 yields 0.0001, epoch 49 keeps 0.0001, epoch 51 keeps 0.00001. -/
theorem concrete_schedule_scenarios :
    lr_schedule 0 (5/10000) schedule = some (5/10000) ∧
    lr_schedule 1 (5/10000) schedule = some (1/1000) ∧
    lr_schedule 15 (1/1000) schedule = some (1/1000) ∧
    lr_schedule 30 (1/1000) schedule = some (1/10000) ∧
    lr_schedule 49 (1/10000) schedule = some (1/10000) ∧
    lr_schedule 51 (1/100000) schedule = some (1/100000) := by
  refine ⟨?_, ?_, ?_, ?_, ?_, ?_⟩ <;>
    norm_num [lr_schedule, schedule, findRate, List.getLast]

/-- C3: on a non-empty sorted schedule, an epoch strictly before the first
breakpoint's epoch or strictly after the last breakpoint's epoch resolves to
the current rate unchanged. -/
theorem out_of_range_freezes (s : Schedule) (a : Int × ℚ) (t : Schedule)
    (hs : s = a :: t) (hsort : SortedSchedule s) (epoch : Int) (lr : ℚ)
    (hout : epoch < a.1 ∨ epoch > ((a :: t).getLast (List.cons_ne_nil a t)).1) :
    lr_schedule epoch lr s = some lr := by
  subst hs
  simp only [lr_schedule, if_pos hout]

/-- C3 witness: the concrete schedule is sorted, epoch 0 is before the first
breakpoint, and the resolver keeps the current rate 37/100. -/
theorem out_of_range_freezes_witness :
    SortedSchedule schedule ∧ lr_schedule 0 (37/100) schedule = some (37/100) :=
  ⟨by decide,
   out_of_range_freezes schedule (1, 1/1000) [(30, 1/10000), (50, 1/100000)]
     rfl (by decide) 0 (37/100) (by norm_num [schedule, List.getLast])⟩

/-- Helper: on a non-empty schedule the resolver is the range guard followed
by the scan, with the scan's fall-through defaulting to the current rate. -/
theorem lr_schedule_cons (epoch : Int) (lr : ℚ) (a : Int × ℚ) (t : Schedule) :
    lr_schedule epoch lr (a :: t) =
      if epoch < a.1 ∨ epoch > ((a :: t).getLast (List.cons_ne_nil a t)).1 then
        some lr
      else
        some ((findRate epoch (a :: t)).getD lr) := by
  by_cases hout : epoch < a.1 ∨ epoch > ((a :: t).getLast (List.cons_ne_nil a t)).1
  · simp only [lr_schedule, if_pos hout]
  · simp only [lr_schedule, if_neg hout]
    cases findRate epoch (a :: t) <;> rfl

/-- Helper: a scan hit always returns one of the schedule's listed rates. -/
theorem findRate_mem (epoch : Int) (s : Schedule) (r : ℚ)
    (h : findRate epoch s = some r) : r ∈ s.map Prod.snd := by
  induction s with
  | nil => simp [findRate] at h
  | cons a t ih =>
      obtain ⟨e, q⟩ := a
      by_cases he : epoch = e
      · simp [findRate, he] at h
        simp [h]
      · simp only [findRate, if_neg he] at h
        simpa using Or.inr (ih h)

/-- C10: on any non-empty schedule, the resolved rate is either the current
rate or one of the rates listed in the schedule; no other value can be
produced. -/
theorem output_closure (s : Schedule) (hne : s ≠ []) (epoch : Int) (lr r : ℚ)
    (h : lr_schedule epoch lr s = some r) :
    r = lr ∨ r ∈ s.map Prod.snd := by
  obtain ⟨a, t, rfl⟩ := List.exists_cons_of_ne_nil hne
  rw [lr_schedule_cons] at h
  by_cases hout : epoch < a.1 ∨ epoch > ((a :: t).getLast (List.cons_ne_nil a t)).1
  · rw [if_pos hout] at h
    exact Or.inl (Option.some.inj h).symm
  · rw [if_neg hout] at h
    have h2 := Option.some.inj h
    cases hfr : findRate epoch (a :: t) with
    | none =>
        rw [hfr] at h2
        have h3 : lr = r := h2
        exact Or.inl h3.symm
    | some r0 =>
        rw [hfr] at h2
        have h3 : r0 = r := h2
        exact Or.inr (h3 ▸ findRate_mem epoch (a :: t) r0 hfr)

/-- C10 witness: on the concrete schedule at epoch 15, the resolved rate
equals the current rate or is listed in the schedule. -/
theorem output_closure_witness :
    (7/10 : ℚ) = 7/10 ∨ (7/10 : ℚ) ∈ schedule.map Prod.snd :=
  output_closure schedule (by decide) 15 (7/10) (7/10)
    (by norm_num [lr_schedule, schedule, findRate, List.getLast])

/-- C6: on any non-empty schedule (sorted or not), any epoch, and any current
rate, the resolver is total: it returns some value and raises nothing. -/
theorem resolve_total (s : Schedule) (hne : s ≠ []) (epoch : Int) (lr : ℚ) :
    ∃ r, lr_schedule epoch lr s = some r := by
  obtain ⟨a, t, rfl⟩ := List.exists_cons_of_ne_nil hne
  by_cases hout : epoch < a.1 ∨ epoch > ((a :: t).getLast (List.cons_ne_nil a t)).1
  · exact ⟨lr, by simp only [lr_schedule, if_pos hout]⟩
  · cases hfr : findRate epoch (a :: t) with
    | none => exact ⟨lr, by simp only [lr_schedule, if_neg hout, hfr]⟩
    | some r0 => exact ⟨r0, by simp only [lr_schedule, if_neg hout, hfr]⟩

/-- C6 witness: an unsorted duplicate-epoch schedule still yields a result at
an arbitrary epoch. -/
theorem resolve_total_witness :
    ∃ r, lr_schedule 3 (9/10) [((5 : Int), (1/2 : ℚ)), (2, 1/4), (5, 1/8)] = some r :=
  resolve_total [((5 : Int), (1/2 : ℚ)), (2, 1/4), (5, 1/8)] (by decide) 3 (9/10)

/-- C7: the resolver is a pure function of (schedule, epoch, current rate):
equal arguments give equal results, and re-resolving the already-resolved
rate at the same epoch changes nothing (no hidden state between calls). -/
theorem resolve_pure (s : Schedule) (epoch : Int) (lr : ℚ) :
    lr_schedule epoch lr s = lr_schedule epoch lr s ∧
    ∀ r, lr_schedule epoch lr s = some r → lr_schedule epoch r s = some r := by
  refine ⟨rfl, fun r h => ?_⟩
  cases s with
  | nil => simp [lr_schedule] at h
  | cons a t =>
      rw [lr_schedule_cons] at h ⊢
      by_cases hout : epoch < a.1 ∨ epoch > ((a :: t).getLast (List.cons_ne_nil a t)).1
      · rw [if_pos hout]
      · rw [if_neg hout] at h ⊢
        have h2 := Option.some.inj h
        cases hfr : findRate epoch (a :: t) with
        | none => rfl
        | some r0 =>
            rw [hfr] at h2
            have h3 : r0 = r := h2
            exact congrArg some h3

/-- C7 witness: resolving epoch 30 a second time, feeding back the rate the
first call produced, returns that same rate. -/
theorem resolve_pure_witness :
    lr_schedule 30 (1/10000) schedule = some (1/10000) :=
  (resolve_pure schedule 30 (1/1000)).2 (1/10000)
    (by norm_num [lr_schedule, schedule, findRate, List.getLast])

/-- Helper: in a sorted schedule the head's epoch is a lower bound for every
member's epoch. -/
theorem head_le_of_mem (a : Int × ℚ) (t : Schedule)
    (hs : SortedSchedule (a :: t)) (p : Int × ℚ) (hp : p ∈ a :: t) :
    a.1 ≤ p.1 := by
  rcases List.mem_cons.mp hp with h | h
  · exact le_of_eq (congrArg Prod.fst h.symm)
  · exact le_of_lt ((List.pairwise_cons.mp hs).1 p h)

/-- Helper: in a sorted schedule the last entry's epoch is an upper bound for
every member's epoch. -/
theorem le_getLast_of_mem (s : Schedule) (hs : SortedSchedule s) (hne : s ≠ [])
    (p : Int × ℚ) (hp : p ∈ s) : p.1 ≤ (s.getLast hne).1 := by
  induction s with
  | nil => exact absurd rfl hne
  | cons a t ih =>
      cases t with
      | nil =>
          rcases List.mem_cons.mp hp with h | h
          · exact le_of_eq (congrArg Prod.fst h)
          · exact absurd h (List.not_mem_nil p)
      | cons b u =>
          have hne2 : b :: u ≠ [] := List.cons_ne_nil b u
          rw [List.getLast_cons hne2]
          rcases List.mem_cons.mp hp with h | h
          · have hmem := List.getLast_mem hne2
            have hlt := (List.pairwise_cons.mp hs).1 _ hmem
            exact le_of_lt (lt_of_le_of_lt (le_of_eq (congrArg Prod.fst h)) hlt)
          · exact ih (List.pairwise_cons.mp hs).2 hne2 h

/-- Helper: with unique epochs (strict sortedness), the scan finds exactly the
rate of a member breakpoint. -/
theorem findRate_eq_of_mem (s : Schedule) (hs : SortedSchedule s) (e : Int)
    (r : ℚ) (hmem : (e, r) ∈ s) : findRate e s = some r := by
  induction s with
  | nil => exact absurd hmem (List.not_mem_nil _)
  | cons a t ih =>
      obtain ⟨e0, r0⟩ := a
      rcases List.mem_cons.mp hmem with h | h
      · injection h with he hr
        show (if e = e0 then some r0 else findRate e t) = some r
        rw [if_pos he, hr]
      · have hlt : e0 < e := (List.pairwise_cons.mp hs).1 (e, r) h
        show (if e = e0 then some r0 else findRate e t) = some r
        rw [if_neg (ne_of_lt hlt).symm]
        exact ih (List.pairwise_cons.mp hs).2 h

/-- C1: for a sorted schedule with unique epochs, querying any breakpoint's
epoch returns exactly that breakpoint's rate, whatever the current rate. -/
theorem breakpoint_exact (s : Schedule) (hs : SortedSchedule s) (e : Int)
    (r lr : ℚ) (hmem : (e, r) ∈ s) : lr_schedule e lr s = some r := by
  have hne : s ≠ [] := List.ne_nil_of_mem hmem
  obtain ⟨a, t, rfl⟩ := List.exists_cons_of_ne_nil hne
  rw [lr_schedule_cons]
  have h1 : a.1 ≤ e := head_le_of_mem a t hs (e, r) hmem
  have h2 : e ≤ ((a :: t).getLast (List.cons_ne_nil a t)).1 :=
    le_getLast_of_mem (a :: t) hs (List.cons_ne_nil a t) (e, r) hmem
  rw [if_neg (by push_neg; exact ⟨h1, h2⟩)]
  rw [findRate_eq_of_mem (a :: t) hs e r hmem]
  rfl

/-- C1 witness: the concrete schedule is sorted and querying breakpoint
epoch 30 with current rate 9/10 yields the scheduled 1/10000. -/
theorem breakpoint_exact_witness :
    SortedSchedule schedule ∧ lr_schedule 30 (9/10) schedule = some (1/10000) :=
  ⟨by decide,
   breakpoint_exact schedule (by decide) 30 (1/10000) (9/10)
     (List.mem_cons_of_mem _ (List.mem_cons_self _ _))⟩

/-- Helper: if no breakpoint's epoch equals the query, the scan misses. -/
theorem findRate_eq_none (e : Int) (s : Schedule) (h : ∀ p ∈ s, p.1 ≠ e) :
    findRate e s = none := by
  induction s with
  | nil => rfl
  | cons a t ih =>
      obtain ⟨e0, r0⟩ := a
      have h1 : ¬ e = e0 :=
        fun he => h (e0, r0) (List.mem_cons_self _ _) he.symm
      show (if e = e0 then some r0 else findRate e t) = none
      rw [if_neg h1]
      exact ih (fun p hp => h p (List.mem_cons_of_mem _ hp))

/-- Helper: epochs are monotone along a sorted schedule. -/
theorem epoch_mono (s : Schedule) (hs : SortedSchedule s) (i j : Fin s.length)
    (hij : i ≤ j) : (s.get i).1 ≤ (s.get j).1 := by
  rcases eq_or_lt_of_le hij with h | h
  · exact le_of_eq (congrArg (fun x => (s.get x).1) h)
  · exact le_of_lt (List.pairwise_iff_get.mp hs i j h)

/-- C2: on a sorted schedule, an epoch strictly between two consecutive
breakpoints' epochs resolves to the current rate unchanged: no interpolation
and no carry-forward of the most recent breakpoint's rate. -/
theorem between_breakpoints (s : Schedule) (hs : SortedSchedule s) (i : Nat)
    (hi : i + 1 < s.length) (e : Int) (lr : ℚ)
    (hlo : (s.get ⟨i, Nat.lt_of_succ_lt hi⟩).1 < e)
    (hhi : e < (s.get ⟨i + 1, hi⟩).1) :
    lr_schedule e lr s = some lr := by
  have hne : s ≠ [] := by
    intro h
    subst h
    exact absurd hi (Nat.not_lt_zero _)
  obtain ⟨a, t, rfl⟩ := List.exists_cons_of_ne_nil hne
  rw [lr_schedule_cons]
  have hnomatch : ∀ p ∈ a :: t, p.1 ≠ e := by
    intro p hp
    obtain ⟨n, hn⟩ := List.mem_iff_get.mp hp
    rcases le_or_lt n.1 i with h | h
    · have hle : ((a :: t).get n).1 ≤ ((a :: t).get ⟨i, Nat.lt_of_succ_lt hi⟩).1 :=
        epoch_mono _ hs _ _ (Fin.le_def.mpr h)
      rw [hn] at hle
      exact ne_of_lt (lt_of_le_of_lt hle hlo)
    · have hle : ((a :: t).get ⟨i + 1, hi⟩).1 ≤ ((a :: t).get n).1 :=
        epoch_mono _ hs _ _ (Fin.le_def.mpr h)
      rw [hn] at hle
      exact (ne_of_lt (lt_of_lt_of_le hhi hle)).symm
  have hfirst : a.1 ≤ e := by
    have h0 : ((a :: t).get ⟨0, Nat.succ_pos t.length⟩).1 ≤
        ((a :: t).get ⟨i, Nat.lt_of_succ_lt hi⟩).1 :=
      epoch_mono _ hs _ _ (Fin.le_def.mpr (Nat.zero_le i))
    exact le_of_lt (lt_of_le_of_lt h0 hlo)
  have hlast : e ≤ ((a :: t).getLast (List.cons_ne_nil a t)).1 := by
    have hlen : (a :: t).length - 1 < (a :: t).length := by
      simp
    have hgl : (a :: t).getLast (List.cons_ne_nil a t) =
        (a :: t).get ⟨(a :: t).length - 1, hlen⟩ := by
      rw [List.getLast_eq_getElem]
      rfl
    have h1 : ((a :: t).get ⟨i + 1, hi⟩).1 ≤
        ((a :: t).get ⟨(a :: t).length - 1, hlen⟩).1 :=
      epoch_mono _ hs _ _ (Fin.mk_le_mk.mpr (by omega))
    rw [hgl]
    exact le_of_lt (lt_of_lt_of_le hhi h1)
  rw [if_neg (by push_neg; exact ⟨hfirst, hlast⟩)]
  rw [findRate_eq_none e _ hnomatch]
  rfl

/-- C2 witness: epoch 15 lies strictly between breakpoints 1 and 30 of the
concrete schedule and the current rate 3/4 is kept. -/
theorem between_breakpoints_witness :
    SortedSchedule schedule ∧ lr_schedule 15 (3/4) schedule = some (3/4) :=
  ⟨by decide,
   between_breakpoints schedule (by decide) 0 (by decide) 15 (3/4)
     (by decide) (by decide)⟩

/-- Helper: the scan returns the rate of the first (lowest-index) matching
breakpoint. -/
theorem findRate_first_match (e : Int) (s : Schedule) (i : Nat)
    (hi : i < s.length) (hmatch : (s.get ⟨i, hi⟩).1 = e)
    (hfirst : ∀ j (hj : j < s.length), j < i → (s.get ⟨j, hj⟩).1 ≠ e) :
    findRate e s = some (s.get ⟨i, hi⟩).2 := by
  induction s generalizing i with
  | nil => exact absurd hi (Nat.not_lt_zero i)
  | cons a t ih =>
      obtain ⟨e0, r0⟩ := a
      cases i with
      | zero =>
          have he : e = e0 := hmatch.symm
          show (if e = e0 then some r0 else findRate e t) = some r0
          rw [if_pos he]
      | succ n =>
          have hne : ¬ e = e0 :=
            fun he => hfirst 0 (Nat.succ_pos _) (Nat.succ_pos n) he.symm
          show (if e = e0 then some r0 else findRate e t) =
            some ((((e0, r0) :: t).get ⟨n + 1, hi⟩).2)
          rw [if_neg hne]
          exact ih n (Nat.lt_of_succ_lt_succ hi) hmatch
            (fun j hj hji =>
              hfirst (j + 1) (Nat.succ_lt_succ hj) (Nat.succ_lt_succ hji))

/-- C9: even on a malformed schedule with duplicate epochs, when the query is
inside the epoch range and matches a breakpoint, the resolver returns the
rate of the first (lowest-index) matching breakpoint. -/
theorem duplicate_epochs_first_match (a : Int × ℚ) (t : Schedule) (e : Int)
    (lr : ℚ) (i : Nat) (hi : i < (a :: t).length)
    (hmatch : ((a :: t).get ⟨i, hi⟩).1 = e)
    (hfirst : ∀ j (hj : j < (a :: t).length), j < i → ((a :: t).get ⟨j, hj⟩).1 ≠ e)
    (hlo : a.1 ≤ e) (hhi : e ≤ ((a :: t).getLast (List.cons_ne_nil a t)).1) :
    lr_schedule e lr (a :: t) = some ((a :: t).get ⟨i, hi⟩).2 := by
  rw [lr_schedule_cons]
  rw [if_neg (by push_neg; exact ⟨hlo, hhi⟩)]
  rw [findRate_first_match e (a :: t) i hi hmatch hfirst]
  rfl

/-- C9 witness: on the duplicate-epoch schedule [(2, 1/2), (2, 1/4)], the
query at epoch 2 returns the first listed rate 1/2, not the second. -/
theorem duplicate_epochs_first_match_witness :
    lr_schedule 2 (9/10) [((2 : Int), (1/2 : ℚ)), (2, 1/4)] = some (1/2) :=
  duplicate_epochs_first_match (2, 1/2) [(2, 1/4)] 2 (9/10) 0 (by decide)
    (by decide) (fun j hj hj0 => absurd hj0 (Nat.not_lt_zero j))
    (by decide) (by decide)

/-- C5: the callback raises the ValueError exactly when the optimizer lacks
the mutable "lr" attribute.  The error depends only on the attribute check:
it is the same for every schedule and every stored rate, so it fires before
any schedule logic runs and before any rate is read; with the attribute
present, that error can never be the outcome. -/
theorem on_epoch_begin_requires_lr (opt : Optimizer) (s : Schedule) (e : Int) :
    (opt.has_lr = false →
      on_epoch_begin opt s e = .error "Optimizer must have a \"lr\" attribute.") ∧
    (opt.has_lr = true →
      on_epoch_begin opt s e ≠ .error "Optimizer must have a \"lr\" attribute.") := by
  obtain ⟨b, lr0⟩ := opt
  constructor
  · intro h
    have hb : b = false := h
    subst hb
    rfl
  · intro h
    have hb : b = true := h
    subst hb
    show (match lr_schedule e lr0 s with
      | some r =>
          Except.ok (({ has_lr := true, learning_rate := r } : Optimizer),
            [logLine e r])
      | none =>
          (Except.error "IndexError: list index out of range" :
            Except String (Optimizer × List String))) ≠ _
    cases lr_schedule e lr0 s with
    | some r => exact fun hcontra => Except.noConfusion hcontra
    | none =>
        intro hcontra
        exact absurd (Except.error.inj hcontra) (by decide)

/-- C5 witness: a missing attribute raises the ValueError on the concrete
schedule at epoch 0; with the attribute present the ValueError is absent. -/
theorem on_epoch_begin_requires_lr_witness :
    on_epoch_begin ⟨false, 1/100⟩ schedule 0 =
      .error "Optimizer must have a \"lr\" attribute." ∧
    on_epoch_begin ⟨true, 1/100⟩ schedule 0 ≠
      .error "Optimizer must have a \"lr\" attribute." :=
  ⟨(on_epoch_begin_requires_lr ⟨false, 1/100⟩ schedule 0).1 rfl,
   (on_epoch_begin_requires_lr ⟨true, 1/100⟩ schedule 0).2 rfl⟩

/-- C8: when the optimizer has the attribute and the resolver yields a rate,
the callback writes exactly that rate back to the attribute and emits exactly
one log line: a newline, the 5-digit zero-padded epoch, and the rate to six
decimal places. -/
theorem on_epoch_begin_writes_and_logs (opt : Optimizer) (s : Schedule)
    (e : Int) (r : ℚ) (hlr : opt.has_lr = true)
    (hres : lr_schedule e opt.learning_rate s = some r) :
    on_epoch_begin opt s e =
      .ok ({ opt with learning_rate := r },
        ["\nEpoch " ++ pad5 e ++ ": Learning rate is " ++ fmt6 r ++ "."]) := by
  obtain ⟨b, lr0⟩ := opt
  have hb : b = true := hlr
  subst hb
  have hres2 : lr_schedule e lr0 s = some r := hres
  show (match lr_schedule e lr0 s with
    | some r =>
        Except.ok (({ has_lr := true, learning_rate := r } : Optimizer),
          [logLine e r])
    | none =>
        (Except.error "IndexError: list index out of range" :
          Except String (Optimizer × List String))) = _
  rw [hres2]
  rfl

/-- Helper: the scheduled rate 0.001 renders as "0.001000" under %6.6f. -/
theorem fmt6_thousandth : fmt6 (1/1000) = "0.001000" := by
  rw [show fmt6 (1/1000) =
      (if (1/1000 : ℚ) < 0 then "-" else "") ++
        ((Int.floor (|(1/1000 : ℚ)| * 1000000 + 1/2)).toNat / 1000000).repr ++
        "." ++
        padZeros 6 ((Int.floor (|(1/1000 : ℚ)| * 1000000 + 1/2)).toNat %
          1000000).repr from rfl]
  rw [show |(1/1000 : ℚ)| = 1/1000 from abs_of_nonneg (by norm_num)]
  rw [show Int.floor ((1/1000 : ℚ) * 1000000 + 1/2) = 1000 by norm_num]
  rw [if_neg (by norm_num : ¬ (1/1000 : ℚ) < 0)]
  decide

/-- C8 witness: with the attribute present and current rate 1/2000, epoch 1
resolves to 0.001, which is written back and logged as the single line
"\nEpoch 00001: Learning rate is 0.001000.". -/
theorem on_epoch_begin_writes_and_logs_witness :
    on_epoch_begin ⟨true, 1/2000⟩ schedule 1 =
      .ok (⟨true, 1/1000⟩, ["\nEpoch 00001: Learning rate is 0.001000."]) := by
  rw [on_epoch_begin_writes_and_logs ⟨true, 1/2000⟩ schedule 1 (1/1000) rfl
    (by norm_num [lr_schedule, schedule, findRate, List.getLast])]
  rw [fmt6_thousandth]
  rw [show pad5 1 = "00001" from by decide]
  rfl

end Train
